import Mathlib

/-!
Verification development for the `quemb` BE-optimization core
(`src/quemb/molbe/_opt.py`, class `BEOPT`) and the scratch-directory
provider exercised by `tests/scratch_manager_test.py`.

The mutable Python object `BEOPT` is embedded as an explicit state record
`Quemb.BEOPT`; its external collaborators (`be_func`, `be_func_parallel`
from `quemb.molbe.solver` / `quemb.molbe.be_parallel`, and the quasi-Newton
stepper `FrankQN` from `quemb.shared.external.optqn`) are out of scope of
the repository sources and are modelled as function parameters.  Real
numbers are embedded as rationals: none of the verified properties depend
on floating-point rounding, only on control flow and state updates.
-/

namespace Quemb

/-- State of a `BEOPT` instance: exactly the attributes assigned in
`BEOPT.__init__` (`_opt.py` lines 77-101).  `Fobjs` is an opaque fragment
object handle (its structure is never inspected by the optimizer), and
`hf_veff`, `ci_coeff_cutoff`, `select_cutoff`, `scratch_dir` are the
`None`-able parameters. -/
structure BEOPT where
  ebe_hf : ℚ
  hf_veff : Option ℚ
  pot : List ℚ
  Fobjs : ℕ
  Nocc : ℕ
  enuc : ℚ
  solver : String
  ecore : ℚ
  iter : ℕ
  err : ℚ
  Ebe : ℚ
  max_space : ℕ
  nproc : ℕ
  ompnum : ℕ
  only_chem : Bool
  conv_tol : ℚ
  relax_density : Bool
  hci_cutoff : ℚ
  ci_coeff_cutoff : Option ℚ
  select_cutoff : Option ℚ
  hci_pt : Bool
  solver_kwargs : List (String × ℚ)
  scratch_dir : Option String
  deriving DecidableEq

/-- Keyword arguments of the serial evaluation call `be_func(...)`
in `BEOPT.objfunc` (`_opt.py` lines 123-144), in source order.
Note the serial call passes `nproc=self.ompnum`. -/
structure BeFuncArgs where
  xk : List ℚ
  Fobjs : ℕ
  Nocc : ℕ
  solver : String
  enuc : ℚ
  eeval : Bool
  return_vec : Bool
  hf_veff : Option ℚ
  only_chem : Bool
  hci_cutoff : ℚ
  nproc : ℕ
  relax_density : Bool
  ci_coeff_cutoff : Option ℚ
  select_cutoff : Option ℚ
  hci_pt : Bool
  ecore : ℚ
  ebe_hf : ℚ
  be_iter : ℕ
  scratch_dir : Option String
  solver_kwargs : List (String × ℚ)
  deriving DecidableEq

/-- Keyword arguments of the parallel evaluation call `be_func_parallel(...)`
in `BEOPT.objfunc` (`_opt.py` lines 146-167), in source order.  Unlike the
serial call it passes both `nproc` and `ompnum`, and omits `hci_pt`. -/
structure BeFuncParallelArgs where
  xk : List ℚ
  Fobjs : ℕ
  Nocc : ℕ
  solver : String
  enuc : ℚ
  eeval : Bool
  return_vec : Bool
  hf_veff : Option ℚ
  nproc : ℕ
  ompnum : ℕ
  only_chem : Bool
  hci_cutoff : ℚ
  relax_density : Bool
  ci_coeff_cutoff : Option ℚ
  select_cutoff : Option ℚ
  ecore : ℚ
  ebe_hf : ℚ
  be_iter : ℕ
  scratch_dir : Option String
  solver_kwargs : List (String × ℚ)
  deriving DecidableEq

/-- The two external fragment-evaluation routines.  Both return the triple
`(scalar error, error vector, BE energy)` exactly as unpacked by
`err_, errvec_, ebe_ = ...` in `objfunc`. -/
structure Externals where
  be_func : BeFuncArgs → ℚ × List ℚ × ℚ
  be_func_parallel : BeFuncParallelArgs → ℚ × List ℚ × ℚ

/-- The argument record built for the serial `be_func` call in `objfunc`
(`eeval=True`, `return_vec=True`, `nproc=self.ompnum`, `be_iter=self.iter`). -/
def serialArgs (s : BEOPT) (xk : List ℚ) : BeFuncArgs :=
  { xk := xk
    Fobjs := s.Fobjs
    Nocc := s.Nocc
    solver := s.solver
    enuc := s.enuc
    eeval := true
    return_vec := true
    hf_veff := s.hf_veff
    only_chem := s.only_chem
    hci_cutoff := s.hci_cutoff
    nproc := s.ompnum
    relax_density := s.relax_density
    ci_coeff_cutoff := s.ci_coeff_cutoff
    select_cutoff := s.select_cutoff
    hci_pt := s.hci_pt
    ecore := s.ecore
    ebe_hf := s.ebe_hf
    be_iter := s.iter
    scratch_dir := s.scratch_dir
    solver_kwargs := s.solver_kwargs }

/-- The argument record built for the parallel `be_func_parallel` call in
`objfunc` (`nproc=self.nproc`, `ompnum=self.ompnum`, `be_iter=self.iter`). -/
def parallelArgs (s : BEOPT) (xk : List ℚ) : BeFuncParallelArgs :=
  { xk := xk
    Fobjs := s.Fobjs
    Nocc := s.Nocc
    solver := s.solver
    enuc := s.enuc
    eeval := true
    return_vec := true
    hf_veff := s.hf_veff
    nproc := s.nproc
    ompnum := s.ompnum
    only_chem := s.only_chem
    hci_cutoff := s.hci_cutoff
    relax_density := s.relax_density
    ci_coeff_cutoff := s.ci_coeff_cutoff
    select_cutoff := s.select_cutoff
    ecore := s.ecore
    ebe_hf := s.ebe_hf
    be_iter := s.iter
    scratch_dir := s.scratch_dir
    solver_kwargs := s.solver_kwargs }

/-- The evaluation dispatch inside `objfunc` (`_opt.py` lines 121-167):
`if self.nproc == 1` call `be_func`, else call `be_func_parallel`. -/
def dispatch (E : Externals) (s : BEOPT) (xk : List ℚ) : ℚ × List ℚ × ℚ :=
  if s.nproc = 1 then E.be_func (serialArgs s xk)
  else E.be_func_parallel (parallelArgs s xk)

/-- `BEOPT.objfunc` (`_opt.py` lines 103-172): dispatch the evaluation,
then `self.err = err_`, `self.Ebe = ebe_`, and `return errvec_`.
The returned pair is (updated state, returned error vector). -/
def objfunc (E : Externals) (s : BEOPT) (xk : List ℚ) : BEOPT × List ℚ :=
  ({ s with err := (dispatch E s xk).1, Ebe := (dispatch E s xk).2.2 },
   (dispatch E s xk).2.1)

theorem objfunc_iter (E : Externals) (s : BEOPT) (xk : List ℚ) :
    (objfunc E s xk).1.iter = s.iter := rfl

theorem objfunc_conv_tol (E : Externals) (s : BEOPT) (xk : List ℚ) :
    (objfunc E s xk).1.conv_tol = s.conv_tol := rfl

theorem objfunc_max_space (E : Externals) (s : BEOPT) (xk : List ℚ) :
    (objfunc E s xk).1.max_space = s.max_space := rfl

theorem objfunc_pot (E : Externals) (s : BEOPT) (xk : List ℚ) :
    (objfunc E s xk).1.pot = s.pot := rfl

/-- Observable reports of `BEOPT.optimize` in the `method == "QN"` branch:
`convergedNoSteps` is the `"CONVERGED w/o Optimization Steps"` banner
(`_opt.py` line 213), `converged` the `"CONVERGED"` banner at the `break`
(line 228), and `budgetExhausted` the silent fall-through when
`range(self.max_space)` is exhausted. -/
inductive OptStatus where
  | convergedNoSteps : OptStatus
  | converged : OptStatus
  | budgetExhausted : OptStatus
  deriving DecidableEq

/-- Arguments of the `FrankQN(self.objfunc, numpy.array(self.pot), f0, J0,
max_space=self.max_space)` construction (`_opt.py` lines 207-209); the
callback `self.objfunc` itself is carried separately as the `nextStep`
oracle. -/
structure FrankQNArgs where
  x0 : List ℚ
  f0 : List ℚ
  J0 : Option (List (List ℚ))
  max_space : ℕ
  deriving DecidableEq

/-- Outcome of one run of the reporting loop, instrumented with the number
of `next_step` calls (`calls`) and the scalar error observed right after
each completed step (`errTrace`, in step order). -/
structure LoopResult (QN : Type) where
  state : BEOPT
  qn : QN
  status : OptStatus
  calls : ℕ
  errTrace : List ℚ

/-- The `for iter_ in range(self.max_space)` loop of `BEOPT.optimize`
(`_opt.py` lines 217-230): call `optQN.next_step(trust_region=...)`,
increment `self.iter`, then `break` when `self.err < self.conv_tol`.
`fuel` is the value of `self.max_space` captured when `range` was built.
The `nextStep` oracle returns the new internal optimizer state and the
`BEOPT` state after the side effects of the `objfunc` calls `next_step`
makes. -/
def optLoop {QN : Type} (nstep : QN → BEOPT → Bool → QN × BEOPT) (tr : Bool) :
    ℕ → QN → BEOPT → LoopResult QN
  | 0, q, s => ⟨s, q, OptStatus.budgetExhausted, 0, []⟩
  | Nat.succ fuel, q, s =>
      let p := nstep q s tr
      let s2 : BEOPT := { p.2 with iter := p.2.iter + 1 }
      if s2.err < s2.conv_tol then
        ⟨s2, p.1, OptStatus.converged, 1, [s2.err]⟩
      else
        let r := optLoop nstep tr fuel p.1 s2
        ⟨r.state, r.qn, r.status, r.calls + 1, s2.err :: r.errTrace⟩

/-- Result of `BEOPT.optimize`: either the interpreter exits via
`sys.exit()` (`_opt.py` line 233; no argument, hence exit status 0), or the
method returns normally with the final state, the constructed `FrankQN`
(abstract) and the arguments it was built from, plus the instrumented loop
observables. -/
inductive OptResult (QN : Type) where
  | exited : ℕ → OptResult QN
  | finished : BEOPT → QN → FrankQNArgs → OptStatus → ℕ → List ℚ → OptResult QN

/-- The step loop of the `"QN"` branch as entered from the post-initial
state: fuel `self.max_space`, the freshly constructed `FrankQN`, and the
state left by the initial `objfunc` evaluation. -/
def qnLoopOf (E : Externals) {QN : Type} (mkQN : FrankQNArgs → QN)
    (nstep : QN → BEOPT → Bool → QN × BEOPT)
    (s : BEOPT) (J0 : Option (List (List ℚ))) (tr : Bool) : LoopResult QN :=
  optLoop nstep tr (objfunc E s s.pot).1.max_space
    (mkQN ⟨(objfunc E s s.pot).1.pot, (objfunc E s s.pot).2, J0,
           (objfunc E s s.pot).1.max_space⟩)
    (objfunc E s s.pot).1

/-- The `method == "QN"` branch of `BEOPT.optimize` (`_opt.py` lines
194-230): initial `f0 = self.objfunc(self.pot)`, construction of `FrankQN`,
immediate-convergence check `self.err < self.conv_tol`, else the step loop. -/
def qnRun (E : Externals) {QN : Type} (mkQN : FrankQNArgs → QN)
    (nstep : QN → BEOPT → Bool → QN × BEOPT)
    (s : BEOPT) (J0 : Option (List (List ℚ))) (tr : Bool) : OptResult QN :=
  let r0 := objfunc E s s.pot
  let args : FrankQNArgs := ⟨r0.1.pot, r0.2, J0, r0.1.max_space⟩
  if r0.1.err < r0.1.conv_tol then
    OptResult.finished r0.1 (mkQN args) args OptStatus.convergedNoSteps 0 []
  else
    OptResult.finished (qnLoopOf E mkQN nstep s J0 tr).state
      (qnLoopOf E mkQN nstep s J0 tr).qn args
      (qnLoopOf E mkQN nstep s J0 tr).status
      (qnLoopOf E mkQN nstep s J0 tr).calls
      (qnLoopOf E mkQN nstep s J0 tr).errTrace

/-- `BEOPT.optimize` (`_opt.py` lines 174-233): the `"QN"` method runs the
quasi-Newton branch; any other method prints a message and calls
`sys.exit()`, which terminates the interpreter with exit status 0. -/
def optimize (E : Externals) {QN : Type} (mkQN : FrankQNArgs → QN)
    (nstep : QN → BEOPT → Bool → QN × BEOPT)
    (s : BEOPT) (method : String) (J0 : Option (List (List ℚ)))
    (tr : Bool) : OptResult QN :=
  if method = "QN" then qnRun E mkQN nstep s J0 tr
  else OptResult.exited 0

/-- Effect on the `BEOPT` state of a sequence of `objfunc` calls with the
given probe potentials, in order.  `FrankQN.next_step` mutates the `BEOPT`
object only through the bound `self.objfunc` callback, so its state effect
is of this shape. -/
def applyProbes (E : Externals) : BEOPT → List (List ℚ) → BEOPT
  | s, [] => s
  | s, xk :: rest => applyProbes E (objfunc E s xk).1 rest

/-- A `nextStep` oracle is objfunc-mediated when its effect on the `BEOPT`
state is that of some sequence of `objfunc` calls — the faithful class of
behaviors for `FrankQN.next_step`, whose only access to the `BEOPT` object
is the `self.objfunc` callback passed at construction. -/
def ObjfuncMediated (E : Externals) {QN : Type}
    (nstep : QN → BEOPT → Bool → QN × BEOPT) : Prop :=
  ∀ q s b, ∃ probes : List (List ℚ), (nstep q s b).2 = applyProbes E s probes

theorem applyProbes_iter (E : Externals) :
    ∀ (probes : List (List ℚ)) (s : BEOPT),
      (applyProbes E s probes).iter = s.iter := by
  intro probes
  induction probes with
  | nil => intro s; rfl
  | cons xk rest ih => intro s; simpa [applyProbes] using ih (objfunc E s xk).1

theorem applyProbes_conv_tol (E : Externals) :
    ∀ (probes : List (List ℚ)) (s : BEOPT),
      (applyProbes E s probes).conv_tol = s.conv_tol := by
  intro probes
  induction probes with
  | nil => intro s; rfl
  | cons xk rest ih => intro s; simpa [applyProbes] using ih (objfunc E s xk).1

theorem mediated_iter (E : Externals) {QN : Type}
    (nstep : QN → BEOPT → Bool → QN × BEOPT)
    (hmed : ObjfuncMediated E nstep) :
    ∀ q s b, ((nstep q s b).2).iter = s.iter := by
  intro q s b
  obtain ⟨probes, h⟩ := hmed q s b
  rw [h, applyProbes_iter]

theorem mediated_conv_tol (E : Externals) {QN : Type}
    (nstep : QN → BEOPT → Bool → QN × BEOPT)
    (hmed : ObjfuncMediated E nstep) :
    ∀ q s b, ((nstep q s b).2).conv_tol = s.conv_tol := by
  intro q s b
  obtain ⟨probes, h⟩ := hmed q s b
  rw [h, applyProbes_conv_tol]

/-- Invariant of the step loop relative to its entry state `s` and its
fuel: call-count bound, trace bookkeeping, iteration counting, tolerance
preservation, terminal-status dichotomy, and the meaning of each status in
terms of the per-step error trace. -/
def LoopInv {QN : Type} (s : BEOPT) (fuel : ℕ) (r : LoopResult QN) : Prop :=
  r.calls ≤ fuel
  ∧ r.errTrace.length = r.calls
  ∧ r.state.iter = s.iter + r.calls
  ∧ r.state.conv_tol = s.conv_tol
  ∧ (r.status = OptStatus.converged ∨ r.status = OptStatus.budgetExhausted)
  ∧ (r.status = OptStatus.budgetExhausted →
       r.calls = fuel ∧ ∀ x ∈ r.errTrace, ¬ x < s.conv_tol)
  ∧ (r.status = OptStatus.converged →
       r.state.err < s.conv_tol ∧ r.errTrace.getLast? = some r.state.err)
  ∧ (∀ x ∈ r.errTrace.dropLast, ¬ x < s.conv_tol)

theorem optLoop_inv {QN : Type} (nstep : QN → BEOPT → Bool → QN × BEOPT)
    (tr : Bool)
    (hct : ∀ q s b, ((nstep q s b).2).conv_tol = s.conv_tol)
    (hit : ∀ q s b, ((nstep q s b).2).iter = s.iter) :
    ∀ (fuel : ℕ) (q : QN) (s : BEOPT),
      LoopInv s fuel (optLoop nstep tr fuel q s) := by
  intro fuel
  induction fuel with
  | zero =>
      intro q s
      simp [optLoop, LoopInv]
  | succ n ih =>
      intro q s
      rcases hp : nstep q s tr with ⟨q1, t⟩
      have hct1 : t.conv_tol = s.conv_tol := by
        have h := hct q s tr; rwa [hp] at h
      have hit1 : t.iter = s.iter := by
        have h := hit q s tr; rwa [hp] at h
      simp only [optLoop, hp]
      by_cases hlt : t.err < t.conv_tol
      · rw [if_pos hlt]
        exact ⟨show (1 : ℕ) ≤ n + 1 by omega, rfl,
          show t.iter + 1 = s.iter + 1 by omega, hct1, Or.inl rfl,
          fun h =>
            absurd (show OptStatus.converged = OptStatus.budgetExhausted from h)
              (by decide),
          fun _ => ⟨show t.err < s.conv_tol by rwa [hct1] at hlt, rfl⟩,
          fun x hx => absurd hx (List.not_mem_nil x)⟩
      · rw [if_neg hlt]
        have hIH := ih q1 { t with iter := t.iter + 1 }
        revert hIH
        generalize optLoop nstep tr n q1 { t with iter := t.iter + 1 } = r
        intro hIH
        obtain ⟨rs, rq, rst, rc, rt⟩ := r
        simp only [LoopInv] at hIH ⊢
        obtain ⟨h1, h2, h3, h4, h5, h6, h7, h8⟩ := hIH
        have hheadnot : ¬ t.err < s.conv_tol := by rwa [hct1] at hlt
        refine ⟨by omega, by simp [h2], by omega, by rw [h4]; exact hct1,
          h5, ?_, ?_, ?_⟩
        · intro hb
          obtain ⟨hb1, hb2⟩ := h6 hb
          refine ⟨by omega, ?_⟩
          intro x hx
          rcases List.mem_cons.mp hx with hx | hx
          · rwa [hx]
          · have hx2 := hb2 x hx
            rwa [hct1] at hx2
        · intro hc
          obtain ⟨hc1, hc2⟩ := h7 hc
          refine ⟨by rwa [hct1] at hc1, ?_⟩
          cases rt with
          | nil => simp at hc2
          | cons a l =>
              rw [List.getLast?_cons_cons]
              exact hc2
        · cases rt with
          | nil =>
              intro x hx
              simp at hx
          | cons a l =>
              intro x hx
              rw [List.dropLast_cons₂] at hx
              rcases List.mem_cons.mp hx with hx | hx
              · rwa [hx]
              · have hx2 := h8 x hx
                rwa [hct1] at hx2

/-- Modelled from the spec: the filesystem as seen by the scratch-directory
provider `WorkDir` (`quemb.shared.manage_scratch`), whose implementation is
not among the sources — only its tests (`tests/scratch_manager_test.py`)
are.  `present p` tells whether the location `p` currently exists. -/
structure FS where
  present : String → Bool

/-- Modelled from the spec: errors the scratch provider can raise —
`fileNotFound` for cleanup of an already-removed location,
`valueError` for other misuse. -/
inductive ScratchError where
  | fileNotFound : ScratchError
  | valueError : ScratchError
  deriving DecidableEq

/-- Removing the location `p` from the filesystem. -/
def removeDir (fs : FS) (p : String) : FS :=
  ⟨fun q => if q = p then false else fs.present q⟩

/-- Creating the location `p` in the filesystem. -/
def mkdirFS (fs : FS) (p : String) : FS :=
  ⟨fun q => if q = p then true else fs.present q⟩

/-- Modelled from the spec: `WorkDir.cleanup` removes the location; a
repeated cleanup on an already-removed location is an error condition the
caller must be able to detect (a `FileNotFoundError`), per §7 of the spec
and `test_already_created`. -/
def cleanup (fs : FS) (p : String) : Except ScratchError FS :=
  if fs.present p then Except.ok (removeDir fs p)
  else Except.error ScratchError.fileNotFound

/-- Outcome of the managed block of a `with WorkDir(...)` statement:
normal completion, or an exception identified by a tag string. -/
inductive BodyOutcome where
  | ok : BodyOutcome
  | exn : String → BodyOutcome
  deriving DecidableEq

/-- Final observation of a `with WorkDir(...)` block: the outcome
propagated to the caller and the filesystem afterwards. -/
structure RunResult where
  outcome : BodyOutcome
  fs : FS

/-- Modelled from the spec: on entry the provider guarantees the location
exists (creating it when absent). -/
def enterFS (fs : FS) (p : String) : FS :=
  if fs.present p then fs else mkdirFS fs p

/-- Modelled from the spec: `WorkDir` as a context manager — the location
is guaranteed to exist for the duration of the block and is removed on
normal completion; on abnormal termination it is preserved for post-mortem
inspection and the exception is re-raised unmodified (§6 of the spec,
`test_keep_upon_error`, `test_context_manager`).  The pre-existing
non-empty-directory check of `test_already_created_non_empty` is outside
this model, which does not track directory contents. -/
def withWorkDir (fs : FS) (p : String) (body : FS → BodyOutcome × FS) :
    RunResult :=
  match body (enterFS fs p) with
  | (BodyOutcome.ok, fs2) => ⟨BodyOutcome.ok, removeDir fs2 p⟩
  | (BodyOutcome.exn e, fs2) => ⟨BodyOutcome.exn e, fs2⟩

/-- Inversion of a `"QN"` run: the `FrankQN` construction arguments are
the post-initial-evaluation potential, residual, `J0` and `max_space`, and
the run either converged immediately (initial error below tolerance, no
loop) or came from the step loop `qnLoopOf`. -/
theorem qnRun_inversion (E : Externals) {QN : Type}
    (mkQN : FrankQNArgs → QN) (nstep : QN → BEOPT → Bool → QN × BEOPT)
    (s : BEOPT) (J0 : Option (List (List ℚ))) (tr : Bool)
    (st : BEOPT) (q : QN) (args : FrankQNArgs) (status : OptStatus)
    (calls : ℕ) (trace : List ℚ)
    (hrun : optimize E mkQN nstep s "QN" J0 tr
        = OptResult.finished st q args status calls trace) :
    args = ⟨(objfunc E s s.pot).1.pot, (objfunc E s s.pot).2, J0,
            (objfunc E s s.pot).1.max_space⟩
    ∧ (((objfunc E s s.pot).1.err < s.conv_tol
          ∧ st = (objfunc E s s.pot).1
          ∧ status = OptStatus.convergedNoSteps ∧ calls = 0 ∧ trace = [])
       ∨ (¬ (objfunc E s s.pot).1.err < s.conv_tol
          ∧ st = (qnLoopOf E mkQN nstep s J0 tr).state
          ∧ status = (qnLoopOf E mkQN nstep s J0 tr).status
          ∧ calls = (qnLoopOf E mkQN nstep s J0 tr).calls
          ∧ trace = (qnLoopOf E mkQN nstep s J0 tr).errTrace)) := by
  have hopt : optimize E mkQN nstep s "QN" J0 tr
      = qnRun E mkQN nstep s J0 tr := by
    simp [optimize]
  rw [hopt] at hrun
  simp only [qnRun] at hrun
  by_cases hc : (objfunc E s s.pot).1.err < (objfunc E s s.pot).1.conv_tol
  · rw [if_pos hc] at hrun
    injection hrun with h1 h2 h3 h4 h5 h6
    exact ⟨h3.symm,
      Or.inl ⟨by rwa [objfunc_conv_tol] at hc, h1.symm, h4.symm,
        h5.symm, h6.symm⟩⟩
  · rw [if_neg hc] at hrun
    injection hrun with h1 h2 h3 h4 h5 h6
    exact ⟨h3.symm,
      Or.inr ⟨by rwa [objfunc_conv_tol] at hc, h1.symm, h4.symm,
        h5.symm, h6.symm⟩⟩

/-- The loop invariant holds of the step loop entered by a `"QN"` run,
relative to the state after the initial evaluation. -/
theorem qnLoopOf_inv (E : Externals) {QN : Type}
    (mkQN : FrankQNArgs → QN) (nstep : QN → BEOPT → Bool → QN × BEOPT)
    (hct : ∀ q s b, ((nstep q s b).2).conv_tol = s.conv_tol)
    (hit : ∀ q s b, ((nstep q s b).2).iter = s.iter)
    (s : BEOPT) (J0 : Option (List (List ℚ))) (tr : Bool) :
    LoopInv (objfunc E s s.pot).1 (objfunc E s s.pot).1.max_space
      (qnLoopOf E mkQN nstep s J0 tr) :=
  optLoop_inv nstep tr hct hit _ _ _

/-- The loop never makes more `next_step` calls than its fuel, with no
assumption at all on the stepper. -/
theorem optLoop_calls_le {QN : Type}
    (nstep : QN → BEOPT → Bool → QN × BEOPT) (tr : Bool) :
    ∀ (fuel : ℕ) (q : QN) (s : BEOPT),
      (optLoop nstep tr fuel q s).calls ≤ fuel := by
  intro fuel
  induction fuel with
  | zero => intro q s; exact Nat.le_refl 0
  | succ n ih =>
      intro q s
      simp only [optLoop]
      by_cases hlt :
          ((nstep q s tr).2).err < ((nstep q s tr).2).conv_tol
      · rw [if_pos hlt]
        show (1 : ℕ) ≤ n + 1
        omega
      · rw [if_neg hlt]
        show (optLoop nstep tr n (nstep q s tr).1 _).calls + 1 ≤ n + 1
        exact Nat.succ_le_succ (ih _ _)

/-! Concrete fixtures for counterexamples and witnesses. -/

/-- Fixture: external evaluators that report scalar error 2 (error vector
`[2]`) at the potential `[0]` and scalar error 0 (error vector `[0]`)
elsewhere; the serial and parallel routines agree. -/
def EW : Externals :=
  ⟨fun a => if a.xk = [0] then (2, [2], 0) else (0, [0], 0),
   fun a => if a.xk = [0] then (2, [2], 0) else (0, [0], 0)⟩

/-- Fixture: a concrete freshly-constructed `BEOPT` state (iteration 0,
budget 1, tolerance 1, serial mode, initial potential `[0]`). -/
def SW : BEOPT :=
  { ebe_hf := 0, hf_veff := none, pot := [0], Fobjs := 0, Nocc := 2,
    enuc := 0, solver := "MP2", ecore := 0, iter := 0, err := 0, Ebe := 0,
    max_space := 1, nproc := 1, ompnum := 4, only_chem := false,
    conv_tol := 1, relax_density := false, hci_cutoff := 0,
    ci_coeff_cutoff := none, select_cutoff := none, hci_pt := false,
    solver_kwargs := [], scratch_dir := none }

/-- Fixture: trivial quasi-Newton internal state. -/
def mkQW : FrankQNArgs → Unit := fun _ => ()

/-- Fixture: a `next_step` that makes no `objfunc` call. -/
def nstepW : Unit → BEOPT → Bool → Unit × BEOPT := fun q s _ => (q, s)

theorem nstepW_mediated : ObjfuncMediated EW nstepW :=
  fun _ _ _ => ⟨[], rfl⟩

/-- Fixture: a `next_step` that evaluates `objfunc` once at the potential
`[9]` (where `EW` reports error 0). -/
def nstepC : Unit → BEOPT → Bool → Unit × BEOPT :=
  fun q s _ => (q, (objfunc EW s [9]).1)

theorem nstepC_mediated : ObjfuncMediated EW nstepC :=
  fun _ _ _ => ⟨[[9]], rfl⟩

/-! Claims. -/

/-- Claim C1, counterexample: `BEOPT.objfunc` does not copy anything into
the stored potential — evaluating the candidate potential `[9]` from a
state whose `pot` is `[1]` leaves `pot` at `[1]`, refuting the claim that
the optimization state's `currentPotential` (`pot`) is updated by
`objfunc` alongside `err` and `Ebe` (in `_opt.py` lines 169-172 only
`self.err` and `self.Ebe` are assigned). -/
theorem objfunc_pot_unchanged_cex :
    (objfunc EW { SW with pot := [1] } [9]).1.pot = [1]
    ∧ (objfunc EW { SW with pot := [1] } [9]).1.pot ≠ [9] := by
  exact ⟨rfl, by decide⟩

/-- Claim C1 (amended): `objfunc` copies two of the three values returned
by the evaluation dispatch into the optimization state — the scalar error
into `err` and the energy into `Ebe` — leaves the stored potential `pot`
(and the iteration counter) unchanged, and returns only the error vector
to the caller. -/
theorem objfunc_state_update (E : Externals) (s : BEOPT) (xk : List ℚ) :
    (objfunc E s xk).1.err = (dispatch E s xk).1
    ∧ (objfunc E s xk).1.Ebe = (dispatch E s xk).2.2
    ∧ (objfunc E s xk).2 = (dispatch E s xk).2.1
    ∧ (objfunc E s xk).1.pot = s.pot
    ∧ (objfunc E s xk).1.iter = s.iter :=
  ⟨rfl, rfl, rfl, rfl, rfl⟩

/-- Claim C2, counterexample: calling `optimize` with an unsupported
method terminates the process via `sys.exit()` called with no argument
(`_opt.py` line 233), which exits the interpreter with status 0 — not the
non-zero exit the claim asserts.  There is no exit code other than 0 for
this run. -/
theorem optimize_unsupported_exit_zero_cex :
    optimize EW mkQW nstepW SW "SD" none false = OptResult.exited 0
    ∧ ¬ ∃ c : ℕ, c ≠ 0
        ∧ optimize EW mkQW nstepW SW "SD" none false = OptResult.exited c := by
  refine ⟨rfl, ?_⟩
  rintro ⟨c, hc, h⟩
  have h0 : (OptResult.exited 0 : OptResult Unit) = OptResult.exited c := by
    rw [← h]; rfl
  injection h0 with h1
  exact hc h1.symm

/-- Claim C2 (amended): calling `BEOPT.optimize` with any method other
than `"QN"` terminates the process via `sys.exit()` — with Python's
default exit status 0, a clean exit rather than a non-zero one — and never
returns a value or a recoverable error to the caller. -/
theorem optimize_unsupported_exits (E : Externals) {QN : Type}
    (mkQN : FrankQNArgs → QN) (nstep : QN → BEOPT → Bool → QN × BEOPT)
    (s : BEOPT) (method : String) (J0 : Option (List (List ℚ))) (tr : Bool)
    (hm : method ≠ "QN") :
    optimize E mkQN nstep s method J0 tr = OptResult.exited 0 := by
  simp [optimize, hm]

theorem optimize_unsupported_exits_witness :
    optimize EW mkQW nstepW SW "UNSUPPORTED" none false
      = OptResult.exited 0 :=
  optimize_unsupported_exits EW mkQW nstepW SW "UNSUPPORTED" none false
    (by decide)

/-- Claim C3: with method `"QN"`, if the scalar error from the initial
evaluation of the objective at the initial potential is already below
`conv_tol`, the run reports immediate convergence with zero `next_step`
calls and an empty step trace, and the iteration counter stays 0. -/
theorem optimize_immediate_convergence (E : Externals) {QN : Type}
    (mkQN : FrankQNArgs → QN) (nstep : QN → BEOPT → Bool → QN × BEOPT)
    (s : BEOPT) (J0 : Option (List (List ℚ))) (tr : Bool)
    (h0 : s.iter = 0)
    (hconv : (objfunc E s s.pot).1.err < s.conv_tol) :
    optimize E mkQN nstep s "QN" J0 tr
      = OptResult.finished (objfunc E s s.pot).1
          (mkQN ⟨(objfunc E s s.pot).1.pot, (objfunc E s s.pot).2, J0,
                 (objfunc E s s.pot).1.max_space⟩)
          ⟨(objfunc E s s.pot).1.pot, (objfunc E s s.pot).2, J0,
           (objfunc E s s.pot).1.max_space⟩
          OptStatus.convergedNoSteps 0 []
    ∧ (objfunc E s s.pot).1.iter = 0 := by
  constructor
  · show qnRun E mkQN nstep s J0 tr = _
    simp only [qnRun]
    rw [objfunc_conv_tol, if_pos hconv]
  · rw [objfunc_iter]; exact h0

theorem optimize_immediate_convergence_witness :
    optimize EW mkQW nstepW { SW with pot := [9] } "QN" none false
      = OptResult.finished { SW with pot := [9] } ()
          ⟨[9], [0], none, 1⟩ OptStatus.convergedNoSteps 0 []
    ∧ (objfunc EW { SW with pot := [9] } [9]).1.iter = 0 :=
  optimize_immediate_convergence EW mkQW nstepW { SW with pot := [9] }
    none false rfl (by decide)

/-- Claim C4: provided `next_step` touches the optimization state only
through `objfunc` calls, a `"QN"` run makes at most `max_space` `next_step`
calls; a budget-exhausted run used exactly the full budget with every step
error at or above the tolerance; and a run that entered the loop and never
saw a step error below the tolerance terminates normally with the
budget-exhausted status rather than an error. -/
theorem optimize_budget_bound (E : Externals) {QN : Type}
    (mkQN : FrankQNArgs → QN) (nstep : QN → BEOPT → Bool → QN × BEOPT)
    (hmed : ObjfuncMediated E nstep)
    (s : BEOPT) (J0 : Option (List (List ℚ))) (tr : Bool)
    (st : BEOPT) (q : QN) (args : FrankQNArgs) (status : OptStatus)
    (calls : ℕ) (trace : List ℚ)
    (hrun : optimize E mkQN nstep s "QN" J0 tr
        = OptResult.finished st q args status calls trace) :
    calls ≤ s.max_space
    ∧ (status = OptStatus.budgetExhausted →
        calls = s.max_space ∧ ∀ x ∈ trace, ¬ x < s.conv_tol)
    ∧ (status ≠ OptStatus.convergedNoSteps →
        (∀ x ∈ trace, ¬ x < s.conv_tol) →
        status = OptStatus.budgetExhausted) := by
  obtain ⟨-, hcase⟩ :=
    qnRun_inversion E mkQN nstep s J0 tr st q args status calls trace hrun
  rcases hcase with ⟨hc, hst, hstat, hcalls, htrace⟩ |
    ⟨hc, hst, hstat, hcalls, htrace⟩
  · subst hstat hcalls htrace
    refine ⟨by omega, ?_, ?_⟩
    · intro hb; exact absurd hb (by decide)
    · intro hne; exact absurd rfl hne
  · have hinv := qnLoopOf_inv E mkQN nstep
      (mediated_conv_tol E nstep hmed) (mediated_iter E nstep hmed) s J0 tr
    simp only [LoopInv] at hinv
    rw [objfunc_max_space, objfunc_conv_tol] at hinv
    obtain ⟨g1, g2, g3, g4, g5, g6, g7, g8⟩ := hinv
    subst hst hstat hcalls htrace
    refine ⟨g1, g6, ?_⟩
    intro hne hall
    rcases g5 with hcv | hbd
    · obtain ⟨hlt, hlast⟩ := g7 hcv
      have hmem : (qnLoopOf E mkQN nstep s J0 tr).state.err
          ∈ (qnLoopOf E mkQN nstep s J0 tr).errTrace := by
        obtain ⟨hne2, heq⟩ :=
          List.mem_getLast?_eq_getLast (Option.mem_def.mpr hlast)
        rw [heq]
        exact List.getLast_mem hne2
      exact absurd hlt (hall _ hmem)
    · exact hbd

theorem optimize_budget_bound_witness :
    (1 : ℕ) ≤ SW.max_space
    ∧ (OptStatus.budgetExhausted = OptStatus.budgetExhausted →
        (1 : ℕ) = SW.max_space ∧ ∀ x ∈ [(2 : ℚ)], ¬ x < SW.conv_tol)
    ∧ (OptStatus.budgetExhausted ≠ OptStatus.convergedNoSteps →
        (∀ x ∈ [(2 : ℚ)], ¬ x < SW.conv_tol) →
        OptStatus.budgetExhausted = OptStatus.budgetExhausted) :=
  optimize_budget_bound EW mkQW nstepW nstepW_mediated SW none false
    { SW with err := 2, iter := 1 } () ⟨[0], [2], none, 1⟩
    OptStatus.budgetExhausted 1 [2] rfl

/-- Claim C5: provided `next_step` touches the optimization state only
through `objfunc` calls, the step trace records the scalar error checked
against the tolerance after every completed step (one entry per `next_step`
call); every entry except possibly the last fails the tolerance — so the
loop never makes another `next_step` call after the step that reached the
tolerance — and a converged run's final entry is the final scalar error,
which is below the tolerance. -/
theorem optimize_first_convergence_stops (E : Externals) {QN : Type}
    (mkQN : FrankQNArgs → QN) (nstep : QN → BEOPT → Bool → QN × BEOPT)
    (hmed : ObjfuncMediated E nstep)
    (s : BEOPT) (J0 : Option (List (List ℚ))) (tr : Bool)
    (st : BEOPT) (q : QN) (args : FrankQNArgs) (status : OptStatus)
    (calls : ℕ) (trace : List ℚ)
    (hrun : optimize E mkQN nstep s "QN" J0 tr
        = OptResult.finished st q args status calls trace) :
    trace.length = calls
    ∧ (∀ x ∈ trace.dropLast, ¬ x < s.conv_tol)
    ∧ (status = OptStatus.converged →
        trace.getLast? = some st.err ∧ st.err < s.conv_tol) := by
  obtain ⟨-, hcase⟩ :=
    qnRun_inversion E mkQN nstep s J0 tr st q args status calls trace hrun
  rcases hcase with ⟨hc, hst, hstat, hcalls, htrace⟩ |
    ⟨hc, hst, hstat, hcalls, htrace⟩
  · subst hstat hcalls htrace
    refine ⟨rfl, ?_, ?_⟩
    · intro x hx; exact absurd hx (List.not_mem_nil x)
    · intro hcv; exact absurd hcv (by decide)
  · have hinv := qnLoopOf_inv E mkQN nstep
      (mediated_conv_tol E nstep hmed) (mediated_iter E nstep hmed) s J0 tr
    simp only [LoopInv] at hinv
    rw [objfunc_max_space, objfunc_conv_tol] at hinv
    obtain ⟨g1, g2, g3, g4, g5, g6, g7, g8⟩ := hinv
    subst hst hstat hcalls htrace
    refine ⟨g2, g8, ?_⟩
    intro hcv
    obtain ⟨hlt, hlast⟩ := g7 hcv
    exact ⟨hlast, hlt⟩

theorem optimize_first_convergence_stops_witness :
    ([(0 : ℚ)]).length = 1
    ∧ (∀ x ∈ ([(0 : ℚ)]).dropLast,
        ¬ x < ({ SW with max_space := 3 } : BEOPT).conv_tol)
    ∧ (OptStatus.converged = OptStatus.converged →
        ([(0 : ℚ)]).getLast?
          = some ({ SW with max_space := 3, iter := 1 } : BEOPT).err
        ∧ ({ SW with max_space := 3, iter := 1 } : BEOPT).err
            < ({ SW with max_space := 3 } : BEOPT).conv_tol) :=
  optimize_first_convergence_stops EW mkQW nstepC nstepC_mediated
    { SW with max_space := 3 } none false
    { SW with max_space := 3, iter := 1 } () ⟨[0], [2], none, 3⟩
    OptStatus.converged 1 [0] rfl

/-- Claim C6: provided `next_step` touches the optimization state only
through `objfunc` calls (which leave `iter` unchanged), the iteration
counter of a run started at `iter = 0` ends equal to the number of
`next_step` calls made by the reporting loop — it is incremented exactly
once per completed step — and the per-step trace has exactly one entry per
call. -/
theorem optimize_iter_counts_steps (E : Externals) {QN : Type}
    (mkQN : FrankQNArgs → QN) (nstep : QN → BEOPT → Bool → QN × BEOPT)
    (hmed : ObjfuncMediated E nstep)
    (s : BEOPT) (J0 : Option (List (List ℚ))) (tr : Bool)
    (st : BEOPT) (q : QN) (args : FrankQNArgs) (status : OptStatus)
    (calls : ℕ) (trace : List ℚ)
    (h0 : s.iter = 0)
    (hrun : optimize E mkQN nstep s "QN" J0 tr
        = OptResult.finished st q args status calls trace) :
    st.iter = calls ∧ trace.length = calls := by
  obtain ⟨-, hcase⟩ :=
    qnRun_inversion E mkQN nstep s J0 tr st q args status calls trace hrun
  rcases hcase with ⟨hc, hst, hstat, hcalls, htrace⟩ |
    ⟨hc, hst, hstat, hcalls, htrace⟩
  · subst hcalls htrace
    refine ⟨?_, rfl⟩
    rw [hst, objfunc_iter]
    exact h0
  · have hinv := qnLoopOf_inv E mkQN nstep
      (mediated_conv_tol E nstep hmed) (mediated_iter E nstep hmed) s J0 tr
    simp only [LoopInv] at hinv
    rw [objfunc_max_space, objfunc_conv_tol, objfunc_iter] at hinv
    obtain ⟨g1, g2, g3, g4, g5, g6, g7, g8⟩ := hinv
    subst hst hcalls htrace
    exact ⟨by rw [g3, h0]; omega, g2⟩

theorem optimize_iter_counts_steps_witness :
    ({ SW with err := 2, iter := 1 } : BEOPT).iter = 1
    ∧ ([(2 : ℚ)]).length = 1 :=
  optimize_iter_counts_steps EW mkQW nstepW nstepW_mediated SW none false
    { SW with err := 2, iter := 1 } () ⟨[0], [2], none, 1⟩
    OptStatus.budgetExhausted 1 [2] rfl rfl

/-- Claim C7: `objfunc` dispatches on the processor count — with
`nproc = 1` it calls `be_func` directly with the full solver configuration
(including `nproc=ompnum`) plus the current iteration index; with
`nproc > 1` the same logical call goes through `be_func_parallel` with the
`nproc` worker count and `ompnum` threads per worker, again with the
iteration index — and when the parallel routine aggregates to the same
triple as the serial one, both modes produce the same scalar error, error
vector and energy. -/
theorem objfunc_dispatch_modes (E : Externals) (s : BEOPT) (xk : List ℚ)
    (n : ℕ) (hn : 1 < n)
    (hagree : E.be_func_parallel (parallelArgs { s with nproc := n } xk)
        = E.be_func (serialArgs s xk)) :
    (s.nproc = 1 →
      objfunc E s xk
        = ({ s with err := (E.be_func (serialArgs s xk)).1,
                    Ebe := (E.be_func (serialArgs s xk)).2.2 },
           (E.be_func (serialArgs s xk)).2.1))
    ∧ (1 < s.nproc →
      objfunc E s xk
        = ({ s with err := (E.be_func_parallel (parallelArgs s xk)).1,
                    Ebe := (E.be_func_parallel (parallelArgs s xk)).2.2 },
           (E.be_func_parallel (parallelArgs s xk)).2.1))
    ∧ (serialArgs s xk).nproc = s.ompnum
    ∧ (serialArgs s xk).be_iter = s.iter
    ∧ (parallelArgs s xk).nproc = s.nproc
    ∧ (parallelArgs s xk).ompnum = s.ompnum
    ∧ (parallelArgs s xk).be_iter = s.iter
    ∧ ((objfunc E { s with nproc := n } xk).1.err
          = (objfunc E { s with nproc := 1 } xk).1.err
       ∧ (objfunc E { s with nproc := n } xk).1.Ebe
          = (objfunc E { s with nproc := 1 } xk).1.Ebe
       ∧ (objfunc E { s with nproc := n } xk).2
          = (objfunc E { s with nproc := 1 } xk).2) := by
  have hn1 : n ≠ 1 := by omega
  have hd1 : dispatch E { s with nproc := 1 } xk
      = E.be_func (serialArgs s xk) := by
    simp [dispatch, serialArgs]
  have hdn : dispatch E { s with nproc := n } xk
      = E.be_func (serialArgs s xk) := by
    simp only [dispatch]
    rw [if_neg (by simpa using hn1)]
    exact hagree
  refine ⟨?_, ?_, rfl, rfl, rfl, rfl, rfl, ?_⟩
  · intro h1
    simp only [objfunc, dispatch, h1, if_pos]
  · intro hgt
    have hne : ¬ s.nproc = 1 := by omega
    simp only [objfunc, dispatch, if_neg hne]
  · refine ⟨?_, ?_, ?_⟩
    · show (dispatch E { s with nproc := n } xk).1
        = (dispatch E { s with nproc := 1 } xk).1
      rw [hd1, hdn]
    · show (dispatch E { s with nproc := n } xk).2.2
        = (dispatch E { s with nproc := 1 } xk).2.2
      rw [hd1, hdn]
    · show (dispatch E { s with nproc := n } xk).2.1
        = (dispatch E { s with nproc := 1 } xk).2.1
      rw [hd1, hdn]

theorem objfunc_dispatch_modes_witness :
    SW.nproc = 1
    ∧ (objfunc EW { SW with nproc := 2 } [5]).2
        = (objfunc EW { SW with nproc := 1 } [5]).2 := by
  have h := objfunc_dispatch_modes EW SW [5] 2 (by omega) rfl
  exact ⟨rfl, h.2.2.2.2.2.2.2.2.2⟩

/-- Claim C10: in any `"QN"` run, the retained-history bound handed to
`FrankQN` is the state's single `max_space` field, the very same value that
bounds the number of optimizer steps — the spec's `maxSteps` and the
quasi-Newton history bound cannot be configured independently. -/
theorem beopt_max_space_dual_use (E : Externals) {QN : Type}
    (mkQN : FrankQNArgs → QN) (nstep : QN → BEOPT → Bool → QN × BEOPT)
    (s : BEOPT) (J0 : Option (List (List ℚ))) (tr : Bool)
    (st : BEOPT) (q : QN) (args : FrankQNArgs) (status : OptStatus)
    (calls : ℕ) (trace : List ℚ)
    (hrun : optimize E mkQN nstep s "QN" J0 tr
        = OptResult.finished st q args status calls trace) :
    args.max_space = s.max_space ∧ calls ≤ s.max_space := by
  obtain ⟨hargs, hcase⟩ :=
    qnRun_inversion E mkQN nstep s J0 tr st q args status calls trace hrun
  have hargsm : args.max_space = s.max_space := by
    rw [hargs]
    exact objfunc_max_space E s s.pot
  refine ⟨hargsm, ?_⟩
  rcases hcase with ⟨-, -, -, hcalls, -⟩ | ⟨-, -, -, hcalls, -⟩
  · omega
  · rw [hcalls]
    have h := optLoop_calls_le nstep tr (objfunc E s s.pot).1.max_space
      (mkQN ⟨(objfunc E s s.pot).1.pot, (objfunc E s s.pot).2, J0,
             (objfunc E s s.pot).1.max_space⟩)
      (objfunc E s s.pot).1
    rw [objfunc_max_space] at h
    exact h

theorem beopt_max_space_dual_use_witness :
    (⟨[0], [2], none, 1⟩ : FrankQNArgs).max_space = SW.max_space
    ∧ (1 : ℕ) ≤ SW.max_space :=
  beopt_max_space_dual_use EW mkQW nstepW SW none false
    { SW with err := 2, iter := 1 } () ⟨[0], [2], none, 1⟩
    OptStatus.budgetExhausted 1 [2] rfl

/-- Claim C8: cleaning up an existing scratch location succeeds and removes
it, and a second cleanup of the same, already-removed location raises a
detectable `FileNotFoundError` instead of silently succeeding (spec §7,
`test_already_created`). -/
theorem workdir_cleanup_twice_errors (fs : FS) (p : String)
    (h : fs.present p = true) :
    cleanup fs p = Except.ok (removeDir fs p)
    ∧ (removeDir fs p).present p = false
    ∧ cleanup (removeDir fs p) p
        = Except.error ScratchError.fileNotFound := by
  refine ⟨?_, ?_, ?_⟩
  · simp [cleanup, h]
  · simp [removeDir]
  · simp [cleanup, removeDir]

/-- Fixture: a filesystem in which only the location `"tmp"` exists. -/
def fsW : FS := ⟨fun q => q == "tmp"⟩

theorem workdir_cleanup_twice_errors_witness :
    cleanup fsW "tmp" = Except.ok (removeDir fsW "tmp")
    ∧ (removeDir fsW "tmp").present "tmp" = false
    ∧ cleanup (removeDir fsW "tmp") "tmp"
        = Except.error ScratchError.fileNotFound :=
  workdir_cleanup_twice_errors fsW "tmp" rfl

/-- Claim C9: as a context manager, the scratch location exists on entry;
on normal completion of the block it is removed; on abnormal termination
the exception is re-raised unmodified and the filesystem is left exactly
as the block left it — in particular the location is preserved for
post-mortem inspection (spec §6, `test_keep_upon_error`,
`test_context_manager`). -/
theorem workdir_context_manager_spec (fs : FS) (p : String)
    (body : FS → BodyOutcome × FS) :
    (enterFS fs p).present p = true
    ∧ ((body (enterFS fs p)).1 = BodyOutcome.ok →
        (withWorkDir fs p body).outcome = BodyOutcome.ok
        ∧ (withWorkDir fs p body).fs.present p = false)
    ∧ (∀ e, (body (enterFS fs p)).1 = BodyOutcome.exn e →
        (withWorkDir fs p body).outcome = BodyOutcome.exn e
        ∧ (withWorkDir fs p body).fs = (body (enterFS fs p)).2) := by
  refine ⟨?_, ?_, ?_⟩
  · rw [enterFS]
    split
    · assumption
    · simp [mkdirFS]
  · intro hok
    rcases hb : body (enterFS fs p) with ⟨o, fs2⟩
    rw [hb] at hok
    simp only at hok
    subst hok
    simp [withWorkDir, hb, removeDir]
  · intro e he
    rcases hb : body (enterFS fs p) with ⟨o, fs2⟩
    rw [hb] at he
    simp only at he
    subst he
    simp [withWorkDir, hb]

/-- Fixture: a block body that raises an exception, leaving the
filesystem untouched. -/
def bodyExnW : FS → BodyOutcome × FS :=
  fun fs => (BodyOutcome.exn "ValueError", fs)

/-- Fixture: a block body that completes normally, leaving the
filesystem untouched. -/
def bodyOkW : FS → BodyOutcome × FS := fun fs => (BodyOutcome.ok, fs)

theorem workdir_context_manager_spec_witness :
    ((withWorkDir fsW "scratch" bodyExnW).outcome
        = BodyOutcome.exn "ValueError"
      ∧ (withWorkDir fsW "scratch" bodyExnW).fs
          = (bodyExnW (enterFS fsW "scratch")).2)
    ∧ ((withWorkDir fsW "scratch" bodyOkW).outcome = BodyOutcome.ok
      ∧ (withWorkDir fsW "scratch" bodyOkW).fs.present "scratch" = false) :=
  ⟨(workdir_context_manager_spec fsW "scratch" bodyExnW).2.2
      "ValueError" rfl,
   (workdir_context_manager_spec fsW "scratch" bodyOkW).2.1 rfl⟩

end Quemb
